import Mathlib

/-!
Verification of the Oracle 3.0 Schelling-oracle simulator against its
natural-language specification.

The repository contains three Python files: `run.py` (the single-run
Streamlit driver), `batch.py` (the batch-grid page), and `mintoff.py`
(the historical dispute-record parser).  The simulation core referenced
by those files (`model.py` with `OracleModel`, and `batch_runner.py` with
`run_batch_parallel`) is not part of the repository; where a claim turns
on that missing code, the corresponding definition is modelled from the
specification and marked as such in its doc comment.

Numbers that are Python floats are embedded as rationals `ℚ`; counts are
`ℕ`.
-/

namespace Oracle

/-- A juror's binary vote / an outcome: `X` or `Y`. -/
inductive Vote where
  | X : Vote
  | Y : Vote
deriving DecidableEq, Repr

/-- The majority rule of `run.py` line 249:
`df["Majority"] = df.apply(lambda row: "Y" if row["Y_votes"] > row["X_votes"] else "X", axis=1)`. -/
def majority (x_votes y_votes : ℕ) : String :=
  if y_votes > x_votes then "Y" else "X"

/-- The Basic-mechanism payoff table displayed by `run.py` lines 111-121:
row = the user's vote, column = the winning outcome.
`data = {"X wins": [p, -d or p+epsilon under attack], "Y wins": [-d, p]}`. -/
def basicPayoff (p d epsilon : ℚ) (attack : Bool) (vote outcome : Vote) : ℚ :=
  match vote, outcome with
  | Vote.X, Vote.X => p
  | Vote.X, Vote.Y => -d
  | Vote.Y, Vote.X => if attack then p + epsilon else -d
  | Vote.Y, Vote.Y => p

/-- Modelled from the spec (§4.3): `model.py` is not in the repository, so the
realized payoff of a juror is taken from the spec's words: the payoff table
evaluated at (the juror's vote, the realized majority outcome). -/
def realizedPayoffBasic (p d epsilon : ℚ) (attack : Bool) (vote majorityOutcome : Vote) : ℚ :=
  basicPayoff p d epsilon attack vote majorityOutcome

/-- C1: For every round result, the majority is determined by the tie-break
convention: Y is declared majority iff Y_votes strictly exceeds X_votes; in
every other case, including an exact tie, X is declared majority. -/
theorem majority_tiebreak (x_votes y_votes : ℕ) :
    (majority x_votes y_votes = "Y" ↔ y_votes > x_votes) ∧
    (majority x_votes y_votes = "X" ↔ ¬ y_votes > x_votes) ∧
    majority x_votes x_votes = "X" := by
  unfold majority
  by_cases h : y_votes > x_votes
  · simp [h]
  · simp [h]

/-- C4: For the Basic mechanism, the payoff table is pay(X,X)=p, pay(X,Y)=-d,
pay(Y,Y)=p, and pay(Y,X)=-d when attack is disabled or p+epsilon when
attack is enabled; consequently with attack disabled a juror's realized
payoff is exactly p if their vote matches the majority and exactly -d
otherwise. -/
theorem basicPayoff_table (p d epsilon : ℚ) :
    (∀ attack : Bool,
      basicPayoff p d epsilon attack Vote.X Vote.X = p ∧
      basicPayoff p d epsilon attack Vote.X Vote.Y = -d ∧
      basicPayoff p d epsilon attack Vote.Y Vote.Y = p) ∧
    basicPayoff p d epsilon false Vote.Y Vote.X = -d ∧
    basicPayoff p d epsilon true Vote.Y Vote.X = p + epsilon ∧
    (∀ vote majorityOutcome : Vote,
      realizedPayoffBasic p d epsilon false vote majorityOutcome =
        if vote = majorityOutcome then p else -d) := by
  refine ⟨fun attack => ⟨rfl, rfl, rfl⟩, rfl, rfl, fun vote m => ?_⟩
  cases vote <;> cases m <;> simp [realizedPayoffBasic, basicPayoff]

/-! ### Historical dispute-record parser (`mintoff.py`, `DisputeParser`) -/

/-- One vote record of a dispute round: `v.get("voted")` and `v.get("choice")`
from `mintoff.py` line 24; a missing or null choice is `none`. -/
structure VoteRec where
  voted : Bool
  choice : Option String
deriving DecidableEq, Repr

/-- One dispute round: `final_round["votes"]`. -/
structure RoundData where
  votes : List VoteRec
deriving DecidableEq, Repr

/-- The summary dictionary returned by
`DisputeParser.get_final_round_summary` (`mintoff.py` lines 37-45). -/
structure FinalRoundSummary where
  X_votes : ℕ
  Y_votes : ℕ
  X_percent : ℚ
  Y_percent : ℚ
  X_is : String
  majority_choice : String
  total_votes : ℕ
deriving DecidableEq, Repr

/-- Floor of a rational as floor-division of its numerator by its
denominator (kept executable). -/
def ratFloor (q : ℚ) : ℤ := Int.fdiv q.num q.den

/-- Python's `round` to the nearest integer with ties to even (banker's
rounding), on the rational value. -/
def pyRound (q : ℚ) : ℤ :=
  let f := ratFloor q
  let r := q - f
  if r < 1/2 then f
  else if 1/2 < r then f + 1
  else if f % 2 = 0 then f else f + 1

/-- Python's `round(q, 2)`: round to two decimal places, ties to even. -/
def round2 (q : ℚ) : ℚ := (pyRound (q * 100) : ℚ) / 100

/-- `mintoff.py` line 24:
`choices = [v["choice"] for v in final_round["votes"] if v.get("voted") and v.get("choice") in ("1", "2")]`. -/
def castBinaryChoices (votes : List VoteRec) : List String :=
  (votes.filter (fun v => v.voted && (v.choice == some "1" || v.choice == some "2"))).map
    (fun v => v.choice.getD "")

/-- The body of `get_final_round_summary` applied to the final round's vote
list (`mintoff.py` lines 24-45): count the cast binary choices, return `none`
when there are none, otherwise label the winning choice X and the losing
choice Y. -/
def summarizeVotes (votes : List VoteRec) : Option FinalRoundSummary :=
  let choices := castBinaryChoices votes
  let c1 := choices.count "1"
  let c2 := choices.count "2"
  let total := c1 + c2
  if total = 0 then none
  else
    let maj := if c1 > c2 then "1" else "2"
    let minr := if maj = "1" then "2" else "1"
    let x_votes := choices.count maj
    let y_votes := choices.count minr
    some { X_votes := x_votes
           Y_votes := y_votes
           X_percent := round2 (100 * x_votes / total)
           Y_percent := round2 (100 * y_votes / total)
           X_is := if maj = "2" then "Yes" else "No"
           majority_choice := maj
           total_votes := total }

/-- `DisputeParser.get_final_round_summary` (`mintoff.py` lines 20-45):
`None` when the dispute has no rounds, otherwise the summary of the last
round's votes. -/
def get_final_round_summary (rounds : List RoundData) : Option FinalRoundSummary :=
  match rounds.getLast? with
  | none => none
  | some final_round => summarizeVotes final_round.votes

/-- Every entry of `castBinaryChoices` is the string "1" or "2". -/
lemma mem_castBinaryChoices (votes : List VoteRec) :
    ∀ c ∈ castBinaryChoices votes, c = "1" ∨ c = "2" := by
  intro c hc
  simp only [castBinaryChoices, List.mem_map, List.mem_filter] at hc
  obtain ⟨v, ⟨-, hv⟩, rfl⟩ := hc
  rcases Bool.and_eq_true _ _ |>.mp hv with ⟨-, hch⟩
  rcases Bool.or_eq_true _ _ |>.mp hch with h1 | h2
  · left
    have : v.choice = some "1" := by simpa using h1
    simp [this]
  · right
    have : v.choice = some "2" := by simpa using h2
    simp [this]

/-- In a list of strings all equal to "1" or "2", the two counts add up to
the length. -/
lemma count_one_add_count_two (l : List String) (h : ∀ c ∈ l, c = "1" ∨ c = "2") :
    l.count "1" + l.count "2" = l.length := by
  induction l with
  | nil => simp
  | cons a t ih =>
    have ht : ∀ c ∈ t, c = "1" ∨ c = "2" := fun c hc => h c (List.mem_cons_of_mem a hc)
    have ihh := ih ht
    rcases h a (List.mem_cons_self a t) with rfl | rfl
    · simp only [List.count_cons, List.length_cons]
      simp only [beq_iff_eq]
      split <;> split <;> simp_all
      all_goals omega
    · simp only [List.count_cons, List.length_cons]
      simp only [beq_iff_eq]
      split <;> split <;> simp_all
      all_goals omega

/-- The number of cast binary choices equals the count of votes passing the
filter predicate. -/
lemma castBinaryChoices_length (votes : List VoteRec) :
    (castBinaryChoices votes).length =
      votes.countP (fun v => v.voted && (v.choice == some "1" || v.choice == some "2")) := by
  simp [castBinaryChoices, List.countP_eq_length_filter]

/-- Unfolding of `summarizeVotes` when at least one cast binary vote exists. -/
lemma summarizeVotes_pos (votes : List VoteRec)
    (h : ¬ ((castBinaryChoices votes).count "1" + (castBinaryChoices votes).count "2" = 0)) :
    summarizeVotes votes = some
      { X_votes := (castBinaryChoices votes).count
          (if (castBinaryChoices votes).count "1" > (castBinaryChoices votes).count "2"
            then "1" else "2")
        Y_votes := (castBinaryChoices votes).count
          (if (if (castBinaryChoices votes).count "1" > (castBinaryChoices votes).count "2"
                then "1" else "2") = "1" then "2" else "1")
        X_percent := round2 (100 * ((castBinaryChoices votes).count
          (if (castBinaryChoices votes).count "1" > (castBinaryChoices votes).count "2"
            then "1" else "2")) /
          ((castBinaryChoices votes).count "1" + (castBinaryChoices votes).count "2"))
        Y_percent := round2 (100 * ((castBinaryChoices votes).count
          (if (if (castBinaryChoices votes).count "1" > (castBinaryChoices votes).count "2"
                then "1" else "2") = "1" then "2" else "1")) /
          ((castBinaryChoices votes).count "1" + (castBinaryChoices votes).count "2"))
        X_is := if (if (castBinaryChoices votes).count "1" > (castBinaryChoices votes).count "2"
                  then "1" else "2") = "2" then "Yes" else "No"
        majority_choice := if (castBinaryChoices votes).count "1" >
            (castBinaryChoices votes).count "2" then "1" else "2"
        total_votes := (castBinaryChoices votes).count "1" +
          (castBinaryChoices votes).count "2" } := by
  simp only [summarizeVotes]
  rw [if_neg h]
  push_cast
  ring_nf

/-- C8: the final-round summary tallies exactly the votes of the last round
whose voted flag is set and whose choice is "1" or "2", and emits X_votes,
Y_votes, the majority choice and percentages over that total. -/
theorem final_round_summary_tallies (rounds : List RoundData) (fr : RoundData)
    (hlast : rounds.getLast? = some fr)
    (hn : 0 < fr.votes.countP
      (fun v => v.voted && (v.choice == some "1" || v.choice == some "2"))) :
    ∃ s, get_final_round_summary rounds = some s ∧
      s.total_votes = fr.votes.countP
        (fun v => v.voted && (v.choice == some "1" || v.choice == some "2")) ∧
      s.majority_choice = (if (castBinaryChoices fr.votes).count "1" >
          (castBinaryChoices fr.votes).count "2" then "1" else "2") ∧
      s.X_votes = (castBinaryChoices fr.votes).count s.majority_choice ∧
      s.Y_votes = (castBinaryChoices fr.votes).count
        (if s.majority_choice = "1" then "2" else "1") ∧
      s.X_votes + s.Y_votes = s.total_votes ∧
      s.X_percent = round2 (100 * s.X_votes / s.total_votes) ∧
      s.Y_percent = round2 (100 * s.Y_votes / s.total_votes) := by
  have hsum : (castBinaryChoices fr.votes).count "1" + (castBinaryChoices fr.votes).count "2" =
      (castBinaryChoices fr.votes).length :=
    count_one_add_count_two _ (mem_castBinaryChoices _)
  have hlen := castBinaryChoices_length fr.votes
  have htot : ¬ ((castBinaryChoices fr.votes).count "1" +
      (castBinaryChoices fr.votes).count "2" = 0) := by omega
  have hs : get_final_round_summary rounds = summarizeVotes fr.votes := by
    simp only [get_final_round_summary, hlast]
  rw [hs, summarizeVotes_pos fr.votes htot]
  refine ⟨_, rfl, ?_, ?_, ?_, ?_, ?_, ?_, ?_⟩
  · simp only
    omega
  · rfl
  · rfl
  · rfl
  · by_cases hgt : (castBinaryChoices fr.votes).count "1" > (castBinaryChoices fr.votes).count "2"
    · simp [hgt]
    · simp [hgt]
      omega
  · push_cast
    rfl
  · push_cast
    rfl

/-- C9: whenever `get_final_round_summary` returns a summary, it satisfies
X_votes ≥ Y_votes and X_votes + Y_votes = total_votes: the X label is
assigned to whichever choice won the majority. -/
theorem summary_X_ge_Y (rounds : List RoundData) (s : FinalRoundSummary)
    (h : get_final_round_summary rounds = some s) :
    s.Y_votes ≤ s.X_votes ∧ s.X_votes + s.Y_votes = s.total_votes := by
  rcases hl : rounds.getLast? with - | fr
  · simp only [get_final_round_summary, hl] at h
    exact Option.noConfusion h
  · simp only [get_final_round_summary, hl] at h
    by_cases htot : (castBinaryChoices fr.votes).count "1" +
        (castBinaryChoices fr.votes).count "2" = 0
    · simp only [summarizeVotes] at h
      rw [if_pos htot] at h
      exact Option.noConfusion h
    · rw [summarizeVotes_pos fr.votes htot] at h
      obtain rfl := (Option.some_inj.mp h).symm
      by_cases hgt : (castBinaryChoices fr.votes).count "1" >
          (castBinaryChoices fr.votes).count "2"
      · simp only [FinalRoundSummary.X_votes, FinalRoundSummary.Y_votes,
          FinalRoundSummary.total_votes, if_pos hgt]
        simp
        omega
      · simp only [FinalRoundSummary.X_votes, FinalRoundSummary.Y_votes,
          FinalRoundSummary.total_votes, if_neg hgt]
        simp
        omega

/-- C10: when the cast binary votes of the final round are split exactly
equally between "1" and "2" (at least one each),
`get_final_round_summary` reports majority_choice = "2" and X_is = "Yes":
the parser resolves ties to choice "2", whereas the simulator's majority
rule resolves ties to "X". -/
theorem parser_tie_resolves_to_two (rounds : List RoundData) (fr : RoundData)
    (hlast : rounds.getLast? = some fr)
    (heq : (castBinaryChoices fr.votes).count "1" = (castBinaryChoices fr.votes).count "2")
    (hpos : 0 < (castBinaryChoices fr.votes).count "1") :
    (∃ s, get_final_round_summary rounds = some s ∧
      s.majority_choice = "2" ∧ s.X_is = "Yes") ∧
    ∀ n : ℕ, majority n n = "X" := by
  have htot : ¬ ((castBinaryChoices fr.votes).count "1" +
      (castBinaryChoices fr.votes).count "2" = 0) := by omega
  have hngt : ¬ ((castBinaryChoices fr.votes).count "1" >
      (castBinaryChoices fr.votes).count "2") := by omega
  have hs : get_final_round_summary rounds = summarizeVotes fr.votes := by
    simp only [get_final_round_summary, hlast]
  refine ⟨⟨_, hs.trans (summarizeVotes_pos fr.votes htot), ?_, ?_⟩,
    fun n => by simp [majority]⟩
  · simp [hngt]
  · simp [hngt]

/-- Witness for C8: a five-vote dispute round in which one vote is not
cast and one has no choice leaves exactly three tallied votes. -/
theorem final_round_summary_tallies_witness :
    ∃ s, get_final_round_summary
        [⟨[⟨true, some "1"⟩, ⟨true, some "1"⟩, ⟨true, some "2"⟩,
           ⟨false, some "1"⟩, ⟨true, none⟩]⟩] = some s ∧
      s.total_votes = 3 ∧ s.majority_choice = "1" := by
  obtain ⟨s, h1, h2, h3, -⟩ := final_round_summary_tallies
    [⟨[⟨true, some "1"⟩, ⟨true, some "1"⟩, ⟨true, some "2"⟩,
       ⟨false, some "1"⟩, ⟨true, none⟩]⟩]
    ⟨[⟨true, some "1"⟩, ⟨true, some "1"⟩, ⟨true, some "2"⟩,
      ⟨false, some "1"⟩, ⟨true, none⟩]⟩
    rfl (by decide)
  refine ⟨s, h1, ?_, ?_⟩
  · rw [h2]
    decide
  · rw [h3]
    decide

/-- Witness for C9: the majority-labelling invariant at a concrete
three-vote dispute whose majority choice is "2". -/
theorem summary_X_ge_Y_witness :
    ∃ s : FinalRoundSummary,
      get_final_round_summary
        [⟨[⟨true, some "2"⟩, ⟨true, some "2"⟩, ⟨true, some "1"⟩]⟩] = some s ∧
      s.Y_votes ≤ s.X_votes ∧ s.X_votes + s.Y_votes = s.total_votes := by
  have h0 : get_final_round_summary
      [⟨[⟨true, some "2"⟩, ⟨true, some "2"⟩, ⟨true, some "1"⟩]⟩] =
      summarizeVotes [⟨true, some "2"⟩, ⟨true, some "2"⟩, ⟨true, some "1"⟩] := rfl
  have h1 := h0.trans (summarizeVotes_pos
    [⟨true, some "2"⟩, ⟨true, some "2"⟩, ⟨true, some "1"⟩] (by decide))
  exact ⟨_, h1, summary_X_ge_Y
    [⟨[⟨true, some "2"⟩, ⟨true, some "2"⟩, ⟨true, some "1"⟩]⟩] _ h1⟩

/-- Witness for C10: a one-one tie in the final round is reported with
majority_choice = "2" and X_is = "Yes". -/
theorem parser_tie_resolves_to_two_witness :
    ∃ s, get_final_round_summary [⟨[⟨true, some "1"⟩, ⟨true, some "2"⟩]⟩] = some s ∧
      s.majority_choice = "2" ∧ s.X_is = "Yes" :=
  (parser_tie_resolves_to_two [⟨[⟨true, some "1"⟩, ⟨true, some "2"⟩]⟩]
    ⟨[⟨true, some "1"⟩, ⟨true, some "2"⟩]⟩ rfl (by decide) (by decide)).1

/-! ### Batch parameter grid (`batch.py`) -/

/-- One entry of `param_list` built by `batch.py` lines 124-137: a parameter
dictionary for one batch job. -/
structure BatchParams where
  num_jurors : ℕ
  p : ℚ
  d : ℚ
  lambda_qre : ℚ
  noise : ℚ
  x_mean : ℚ
  payoff_type : String
  attack : Bool
  epsilon : ℚ
  num_simulations : ℕ
deriving DecidableEq, Repr

/-- `batch.py` line 118:
`epsilon_vals = epsilon_range if attack_mode else [0.0]`. -/
def epsilon_vals (attack_mode : Bool) (epsilon_range : List ℚ) : List ℚ :=
  if attack_mode then epsilon_range else [0]

/-- The parameter dictionary appended for one tuple of the product
(`batch.py` lines 126-137). -/
def mkBatchParams (payoff_type : String) (attack_mode : Bool) (num_simulations : ℕ)
    (t : (((((ℕ × ℚ) × ℚ) × ℚ) × ℚ) × ℚ) × ℚ) : BatchParams :=
  { num_jurors := t.1.1.1.1.1.1
    p := t.1.1.1.1.1.2
    d := t.1.1.1.1.2
    lambda_qre := t.1.1.1.2
    noise := t.1.1.2
    x_mean := t.1.2
    payoff_type := payoff_type
    attack := attack_mode
    epsilon := t.2
    num_simulations := num_simulations }

/-- `batch.py` lines 124-137: `param_list` is built by iterating
`itertools.product(juror_range, p_range, d_range, lambda_range, noise_range,
x_range, epsilon_vals)` (rightmost component varies fastest, which is the
enumeration order of the iterated list product). -/
def param_list (juror_range : List ℕ)
    (p_range d_range lambda_range noise_range x_range : List ℚ)
    (payoff_type : String) (attack_mode : Bool) (epsilon_range : List ℚ)
    (num_simulations : ℕ) : List BatchParams :=
  ((((((juror_range ×ˢ p_range) ×ˢ d_range) ×ˢ lambda_range) ×ˢ noise_range) ×ˢ x_range) ×ˢ
      epsilon_vals attack_mode epsilon_range).map
    (mkBatchParams payoff_type attack_mode num_simulations)

lemma mkBatchParams_injective (payoff_type : String) (attack_mode : Bool)
    (num_simulations : ℕ) :
    Function.Injective (mkBatchParams payoff_type attack_mode num_simulations) := by
  rintro ⟨⟨⟨⟨⟨⟨M1, p1⟩, d1⟩, l1⟩, n1⟩, x1⟩, e1⟩ ⟨⟨⟨⟨⟨⟨M2, p2⟩, d2⟩, l2⟩, n2⟩, x2⟩, e2⟩ h
  simp only [mkBatchParams, BatchParams.mk.injEq] at h
  obtain ⟨rfl, rfl, rfl, rfl, rfl, rfl, -, -, rfl, -⟩ := h
  rfl

/-- C3: the batch job sequence is exactly the cartesian product of the
per-parameter value sets: its length is the product of the set sizes, a
job is in the list iff each of its components is in the corresponding
range (with epsilon fixed to 0.0 when attack is disabled), and under
duplicate-free ranges every combination appears exactly once. -/
theorem param_list_is_cartesian_product (juror_range : List ℕ)
    (p_range d_range lambda_range noise_range x_range epsilon_range : List ℚ)
    (payoff_type : String) (attack_mode : Bool) (num_simulations : ℕ)
    (hj : juror_range.Nodup) (hp : p_range.Nodup) (hd : d_range.Nodup)
    (hl : lambda_range.Nodup) (hn : noise_range.Nodup) (hx : x_range.Nodup)
    (he : epsilon_range.Nodup) :
    (param_list juror_range p_range d_range lambda_range noise_range x_range
        payoff_type attack_mode epsilon_range num_simulations).length =
      juror_range.length * p_range.length * d_range.length * lambda_range.length *
        noise_range.length * x_range.length *
        (if attack_mode then epsilon_range.length else 1) ∧
    (∀ M p d lam n x eps,
      (⟨M, p, d, lam, n, x, payoff_type, attack_mode, eps, num_simulations⟩ : BatchParams) ∈
          param_list juror_range p_range d_range lambda_range noise_range x_range
            payoff_type attack_mode epsilon_range num_simulations ↔
        (M ∈ juror_range ∧ p ∈ p_range ∧ d ∈ d_range ∧ lam ∈ lambda_range ∧
          n ∈ noise_range ∧ x ∈ x_range ∧
          (if attack_mode then eps ∈ epsilon_range else eps = 0))) ∧
    (∀ job ∈ param_list juror_range p_range d_range lambda_range noise_range x_range
        payoff_type attack_mode epsilon_range num_simulations,
      (param_list juror_range p_range d_range lambda_range noise_range x_range
        payoff_type attack_mode epsilon_range num_simulations).count job = 1) := by
  have hnodupEps : (epsilon_vals attack_mode epsilon_range).Nodup := by
    cases attack_mode <;> simp [epsilon_vals, he]
  have hnodup : (param_list juror_range p_range d_range lambda_range noise_range x_range
      payoff_type attack_mode epsilon_range num_simulations).Nodup := by
    refine List.Nodup.map (mkBatchParams_injective _ _ _) ?_
    exact ((((((hj.product hp).product hd).product hl).product hn).product hx).product hnodupEps)
  refine ⟨?_, ?_, ?_⟩
  · simp only [param_list, List.length_map, List.length_product]
    cases attack_mode <;> simp [epsilon_vals]
  · intro M p d lam n x eps
    constructor
    · intro hmem
      obtain ⟨t, ht, hEq⟩ := List.mem_map.mp hmem
      obtain ⟨⟨⟨⟨⟨⟨M1, p1⟩, d1⟩, l1⟩, n1⟩, x1⟩, e1⟩ := t
      simp only [mkBatchParams, BatchParams.mk.injEq] at hEq
      obtain ⟨rfl, rfl, rfl, rfl, rfl, rfl, -, -, rfl, -⟩ := hEq
      simp only [List.mem_product] at ht
      obtain ⟨⟨⟨⟨⟨⟨hM, hP⟩, hD⟩, hL⟩, hN⟩, hX⟩, hE⟩ := ht
      refine ⟨hM, hP, hD, hL, hN, hX, ?_⟩
      cases attack_mode
      · simpa [epsilon_vals] using hE
      · simpa [epsilon_vals] using hE
    · rintro ⟨hM, hP, hD, hL, hN, hX, hE⟩
      refine List.mem_map.mpr ⟨⟨⟨⟨⟨⟨⟨M, p⟩, d⟩, lam⟩, n⟩, x⟩, eps⟩, ?_, rfl⟩
      simp only [List.mem_product]
      refine ⟨⟨⟨⟨⟨⟨hM, hP⟩, hD⟩, hL⟩, hN⟩, hX⟩, ?_⟩
      cases attack_mode
      · simpa [epsilon_vals] using hE
      · simpa [epsilon_vals] using hE
  · intro job hjob
    exact List.count_eq_one_of_mem hnodup hjob

/-- Witness for C3: a two-by-two grid with attack disabled yields exactly
four jobs, each combination exactly once, with epsilon pinned to 0. -/
theorem param_list_is_cartesian_product_witness :
    (param_list [3, 5] [1, 2] [0] [1] [0] [0] "Basic" false [7] 10).length =
      2 * 2 * 1 * 1 * 1 * 1 * 1 ∧
    ((⟨3, 2, 0, 1, 0, 0, "Basic", false, 0, 10⟩ : BatchParams) ∈
        param_list [3, 5] [1, 2] [0] [1] [0] [0] "Basic" false [7] 10 ↔
      (3 ∈ [3, 5] ∧ (2:ℚ) ∈ [1, 2] ∧ (0:ℚ) ∈ [0] ∧ (1:ℚ) ∈ [1] ∧
        (0:ℚ) ∈ [0] ∧ (0:ℚ) ∈ [0] ∧ (if false then (0:ℚ) ∈ [7] else (0:ℚ) = 0))) := by
  obtain ⟨h1, h2, -⟩ := param_list_is_cartesian_product [3, 5] [1, 2] [0] [1] [0] [0] [7]
    "Basic" false 10 (by decide) (by norm_num) (by decide) (by decide) (by decide)
    (by decide) (by decide)
  exact ⟨by simpa using h1, h2 3 2 0 1 0 0 0⟩

/-! ### Persisted per-round result columns (`run.py` lines 226-253, 301) -/

/-- The keys of `data_dict` built in `run.py` lines 226-239, in order,
including the conditional no-attack columns of lines 242-244 (present only
when attack mode is on and the model returned no-attack histories). -/
def data_dict_columns (attack_mode has_no_attack_history : Bool) : List String :=
  ["Round", "Number of Jurors", "lambda_qre", "base reward (p)", "deposit (d)",
   "noise", "x_guess_noise", "payoff_type", "X_votes", "Y_votes",
   "avg_payoff_X", "avg_payoff_Y"] ++
  (if attack_mode && has_no_attack_history
    then ["X_votes_no_attack", "Y_votes_no_attack"] else [])

/-- The columns of the DataFrame the CSV download persists (`run.py` line
301): `data_dict` plus the derived "Majority" (line 249) and
"AttackSucceeded" (lines 250-253) columns, which are always added. -/
def persisted_columns (attack_mode has_no_attack_history : Bool) : List String :=
  data_dict_columns attack_mode has_no_attack_history ++ ["Majority", "AttackSucceeded"]

/-- The column list asserted by the claim, from its words: the twelve schema
columns plus the no-attack vote counts iff attack mode is enabled. -/
def claimed_columns (attack_mode : Bool) : List String :=
  ["Round", "Number of Jurors", "lambda_qre", "base reward (p)", "deposit (d)",
   "noise", "x_guess_noise", "payoff_type", "X_votes", "Y_votes",
   "avg_payoff_X", "avg_payoff_Y"] ++
  (if attack_mode then ["X_votes_no_attack", "Y_votes_no_attack"] else [])

/-- Counterexample to C7: with attack disabled, the persisted rows carry a
"Majority" column that the claimed column list does not contain, so the
persisted columns are not exactly the claimed ones. -/
theorem persisted_columns_ne_claimed :
    "Majority" ∈ persisted_columns false false ∧
    "Majority" ∉ claimed_columns false ∧
    persisted_columns false false ≠ claimed_columns false := by
  refine ⟨by decide, by decide, ?_⟩
  intro h
  have : "Majority" ∈ claimed_columns false := h ▸ (by decide : "Majority" ∈ persisted_columns false false)
  exact absurd this (by decide)

/-- C7 (amended): every persisted per-round row carries exactly the claimed
columns plus the derived "Majority" and "AttackSucceeded" columns, and the
no-attack vote counts are present iff attack mode is enabled (taking the
spec's guarantee, §4.3, that attack mode populates the no-attack
histories). -/
theorem persisted_row_columns (attack_mode : Bool) :
    persisted_columns attack_mode attack_mode =
      claimed_columns attack_mode ++ ["Majority", "AttackSucceeded"] ∧
    (("X_votes_no_attack" ∈ persisted_columns attack_mode attack_mode) ↔ attack_mode = true) ∧
    (("Y_votes_no_attack" ∈ persisted_columns attack_mode attack_mode) ↔ attack_mode = true) := by
  cases attack_mode
  · exact ⟨by decide, by decide, by decide⟩
  · exact ⟨by decide, by decide, by decide⟩

/-! ### Quantal-response vote probability (spec §4.2) -/

/-- Modelled from the spec (§4.2 step 4): `model.py` with the
`JurorDecisionModel` is not in the repository. The quantal-response
probability of voting X from the observed utilities, computed with
max-subtraction stabilization:
`exp(lambda*U_X - m) / (exp(lambda*U_X - m) + exp(lambda*U_Y - m))` with
`m = max(lambda*U_X, lambda*U_Y)`. -/
noncomputable def qreProbX (lambda_qre uX uY : ℝ) : ℝ :=
  let sX := lambda_qre * uX
  let sY := lambda_qre * uY
  let m := max sX sY
  Real.exp (sX - m) / (Real.exp (sX - m) + Real.exp (sY - m))

/-- C5: when lambda_qre = 0 the quantal-response probability of voting X is
exactly 1/2, independent of the utilities. -/
theorem qreProbX_lambda_zero (uX uY : ℝ) : qreProbX 0 uX uY = 1 / 2 := by
  simp [qreProbX]
  norm_num

/-! ### Batch execution and row accounting (spec §4.5, §7) -/

/-- One persisted batch result row, tagged with the index and parameters of
the job that produced it and the round number.  Modelled from the spec
(§3): `batch_runner.py` is not in the repository. -/
structure BatchResultRow where
  jobIndex : ℕ
  job : BatchParams
  round : ℕ
deriving DecidableEq, Repr

/-- The completion report of a batch run.  Modelled from the spec (§4.5,
§7): total rows plus completed/failed job counts. -/
structure BatchReport where
  rows : List BatchResultRow
  completedJobs : ℕ
  failedJobs : ℕ
deriving DecidableEq, Repr

/-- The `num_simulations` rows a successfully completed job emits, tagged
with that job's parameters.  Modelled from the spec (§3 invariant). -/
def jobRows (i : ℕ) (job : BatchParams) : List BatchResultRow :=
  (List.range job.num_simulations).map (fun r => ⟨i, job, r⟩)

/-- Modelled from the spec (§4.5, §7): `run_batch_parallel` of the missing
`batch_runner.py`, with worker failure supplied as an external oracle on
the job index.  A failing job contributes no rows and is counted as
failed; a completing job contributes exactly its `num_simulations` rows.
Chunked dispatch and storage order are abstracted away: completeness of
the emitted rows is the contract (§4.5 Ordering). -/
def runJobs (failsAt : ℕ → Bool) : ℕ → List BatchParams → BatchReport
  | _, [] => ⟨[], 0, 0⟩
  | i, job :: rest =>
    if failsAt i then
      ⟨(runJobs failsAt (i + 1) rest).rows,
       (runJobs failsAt (i + 1) rest).completedJobs,
       (runJobs failsAt (i + 1) rest).failedJobs + 1⟩
    else
      ⟨jobRows i job ++ (runJobs failsAt (i + 1) rest).rows,
       (runJobs failsAt (i + 1) rest).completedJobs + 1,
       (runJobs failsAt (i + 1) rest).failedJobs⟩

/-- Modelled from the spec (§4.5): the batch run over the whole ordered job
sequence, starting at job index 0. -/
def run_batch_parallel (jobs : List BatchParams) (failsAt : ℕ → Bool) : BatchReport :=
  runJobs failsAt 0 jobs

/-- Completed and failed job counts always partition the job list. -/
lemma runJobs_count (failsAt : ℕ → Bool) (jobs : List BatchParams) (i : ℕ) :
    (runJobs failsAt i jobs).completedJobs + (runJobs failsAt i jobs).failedJobs =
      jobs.length := by
  induction jobs generalizing i with
  | nil => rfl
  | cons job rest ih =>
    have h := ih (i + 1)
    simp only [runJobs, List.length_cons]
    by_cases hf : failsAt i
    · rw [if_pos hf]
      simp only
      omega
    · rw [if_neg hf]
      simp only
      omega

/-- Every emitted row belongs to a job index in the dispatched window whose
failure oracle is false. -/
lemma runJobs_row_indices (failsAt : ℕ → Bool) (jobs : List BatchParams) (i : ℕ) :
    ∀ r ∈ (runJobs failsAt i jobs).rows,
      i ≤ r.jobIndex ∧ r.jobIndex < i + jobs.length ∧ failsAt r.jobIndex = false := by
  induction jobs generalizing i with
  | nil => intro r hr; simp [runJobs] at hr
  | cons job rest ih =>
    intro r hr
    simp only [runJobs] at hr
    by_cases hf : failsAt i
    · rw [if_pos hf] at hr
      simp only at hr
      obtain ⟨h1, h2, h3⟩ := ih (i + 1) r hr
      exact ⟨by omega, by simp only [List.length_cons]; omega, h3⟩
    · rw [if_neg hf] at hr
      simp only [List.mem_append] at hr
      rcases hr with hr | hr
      · simp only [jobRows, List.mem_map, List.mem_range] at hr
        obtain ⟨k, -, rfl⟩ := hr
        refine ⟨le_refl i, by simp only [List.length_cons]; omega, ?_⟩
        simpa using hf
      · obtain ⟨h1, h2, h3⟩ := ih (i + 1) r hr
        exact ⟨by omega, by simp only [List.length_cons]; omega, h3⟩

/-- With no failures in the dispatched window, the row count is the sum of
the jobs' `num_simulations`. -/
lemma runJobs_rows_length (failsAt : ℕ → Bool) (jobs : List BatchParams) (i : ℕ) (S : ℕ)
    (huniform : ∀ j ∈ jobs, j.num_simulations = S)
    (hok : ∀ k, i ≤ k → k < i + jobs.length → failsAt k = false) :
    (runJobs failsAt i jobs).rows.length = jobs.length * S := by
  induction jobs generalizing i with
  | nil => simp [runJobs]
  | cons job rest ih =>
    have hfi : failsAt i = false := hok i (le_refl i) (by simp)
    simp only [runJobs]
    rw [if_neg (by simp [hfi])]
    simp only [List.length_append, jobRows, List.length_map, List.length_range,
      List.length_cons]
    have hrest := ih (i + 1) (fun j hj => huniform j (List.mem_cons_of_mem _ hj))
      (fun k hk1 hk2 => hok k (by omega) (by simp only [List.length_cons]; omega))
    have hjob : job.num_simulations = S := huniform job (List.mem_cons_self _ _)
    rw [hjob, hrest]
    ring

/-- The rows a single job contributes, recovered by filtering on its index. -/
lemma runJobs_rows_filter (failsAt : ℕ → Bool) (jobs : List BatchParams) (i : ℕ) (k : ℕ)
    (job : BatchParams) (hk : jobs.get? k = some job) (hok : failsAt (i + k) = false) :
    ((runJobs failsAt i jobs).rows.filter (fun r => r.jobIndex == i + k)).length =
      job.num_simulations := by
  induction jobs generalizing i k with
  | nil => simp at hk
  | cons hd rest ih =>
    cases k with
    | zero =>
      simp only [List.get?] at hk
      obtain rfl : hd = job := Option.some_inj.mp hk
      have hfi : failsAt i = false := by simpa using hok
      simp only [runJobs]
      rw [if_neg (by simp [hfi])]
      simp only [List.filter_append, List.length_append]
      have h1 : (jobRows i hd).filter (fun r => r.jobIndex == i + 0) = jobRows i hd := by
        apply List.filter_eq_self.mpr
        intro r hr
        simp only [jobRows, List.mem_map, List.mem_range] at hr
        obtain ⟨m, -, rfl⟩ := hr
        simp
      have h2 : ((runJobs failsAt (i + 1) rest).rows.filter
          (fun r => r.jobIndex == i + 0)).length = 0 := by
        rw [List.length_eq_zero]
        apply List.filter_eq_nil_iff.mpr
        intro r hr
        have := runJobs_row_indices failsAt rest (i + 1) r hr
        simp only [beq_iff_eq]
        omega
      rw [h1, h2]
      simp [jobRows]
    | succ n =>
      simp only [List.get?] at hk
      have hok2 : failsAt (i + 1 + n) = false := by
        have : i + 1 + n = i + (n + 1) := by omega
        rw [this]
        exact hok
      have hrec := ih (i + 1) n hk hok2
      have hidx : i + 1 + n = i + (n + 1) := by omega
      simp only [runJobs]
      by_cases hf : failsAt i
      · rw [if_pos hf]
        simp only
        rw [← hidx]
        exact hrec
      · rw [if_neg hf]
        simp only [List.filter_append, List.length_append]
        have h1 : (jobRows i hd).filter (fun r => r.jobIndex == i + (n + 1)) = [] := by
          apply List.filter_eq_nil_iff.mpr
          intro r hr
          simp only [jobRows, List.mem_map, List.mem_range] at hr
          obtain ⟨m, -, rfl⟩ := hr
          simp only [beq_iff_eq]
          omega
        rw [h1]
        simp only [List.length_nil, Nat.zero_add]
        rw [← hidx]
        exact hrec

/-- C2: for a batch of J jobs with `num_simulations = S` each,
completed + failed = J always; with no failing job exactly J*S rows are
emitted; a failed job contributes exactly zero rows; a completed job
contributes exactly S rows — never a partial count. -/
theorem batch_row_invariant (jobs : List BatchParams) (failsAt : ℕ → Bool) (S : ℕ)
    (huniform : ∀ j ∈ jobs, j.num_simulations = S) :
    (run_batch_parallel jobs failsAt).completedJobs +
        (run_batch_parallel jobs failsAt).failedJobs = jobs.length ∧
    ((∀ k, k < jobs.length → failsAt k = false) →
      (run_batch_parallel jobs failsAt).rows.length = jobs.length * S) ∧
    (∀ k, failsAt k = true →
      ((run_batch_parallel jobs failsAt).rows.filter (fun r => r.jobIndex == k)).length = 0) ∧
    (∀ k job, jobs.get? k = some job → failsAt k = false →
      ((run_batch_parallel jobs failsAt).rows.filter (fun r => r.jobIndex == k)).length = S) := by
  refine ⟨runJobs_count failsAt jobs 0, ?_, ?_, ?_⟩
  · intro hok
    exact runJobs_rows_length failsAt jobs 0 S huniform (fun k _ hk2 => hok k (by omega))
  · intro k hkfail
    rw [List.length_eq_zero]
    apply List.filter_eq_nil_iff.mpr
    intro r hr
    have hri := runJobs_row_indices failsAt jobs 0 r hr
    simp only [beq_iff_eq]
    intro hEq
    rw [hEq] at hri
    rw [hri.2.2] at hkfail
    exact Bool.noConfusion hkfail
  · intro k job hk hok
    have h := runJobs_rows_filter failsAt jobs 0 k job hk (by simpa using hok)
    rw [huniform job (List.get?_mem hk)] at h
    simpa using h

/-- Witness for C2: two ten-round jobs with no failure produce twenty rows,
and the completed and failed counts partition the two jobs. -/
theorem batch_row_invariant_witness :
    (run_batch_parallel
        [⟨3, 1, 0, 1, 0, 0, "Basic", false, 0, 10⟩,
         ⟨5, 1, 0, 1, 0, 0, "Basic", false, 0, 10⟩] (fun _ => false)).completedJobs +
      (run_batch_parallel
        [⟨3, 1, 0, 1, 0, 0, "Basic", false, 0, 10⟩,
         ⟨5, 1, 0, 1, 0, 0, "Basic", false, 0, 10⟩] (fun _ => false)).failedJobs = 2 ∧
    (run_batch_parallel
        [⟨3, 1, 0, 1, 0, 0, "Basic", false, 0, 10⟩,
         ⟨5, 1, 0, 1, 0, 0, "Basic", false, 0, 10⟩] (fun _ => false)).rows.length = 2 * 10 := by
  obtain ⟨h1, h2, -, -⟩ := batch_row_invariant
    [⟨3, 1, 0, 1, 0, 0, "Basic", false, 0, 10⟩,
     ⟨5, 1, 0, 1, 0, 0, "Basic", false, 0, 10⟩] (fun _ => false) 10 (by decide)
  exact ⟨by simpa using h1, by simpa using h2 (fun k _ => rfl)⟩

/-! ### Deterministic seeded simulation (spec §4.2-§4.4) -/

/-- The parameters `OracleModel` is constructed with (`run.py` lines
87-96); spec §3 `SimulationParameters`. -/
structure SimulationParameters where
  num_jurors : ℕ
  p : ℚ
  d : ℚ
  lambda_qre : ℚ
  noise : ℚ
  x_mean : ℚ
  x_guess_noise : ℚ
  payoff_type : String
  attack : Bool
  epsilon : ℚ
deriving DecidableEq, Repr

/-- Modelled from the spec (§4.4): `model.py` is not in the repository; a
64-bit linear congruential generator stands in for the simulator's
pseudo-random source, so that every draw is a pure function of the
threaded state. -/
def lcgNext (s : ℕ) : ℕ := (6364136223846793005 * s + 1442695040888963407) % 2 ^ 64

/-- Modelled from the spec: one uniform draw in [0,1) together with the
advanced generator state. -/
def randUnit (s : ℕ) : ℚ × ℕ :=
  let s2 := lcgNext s
  (((s2 % 2 ^ 32 : ℕ) : ℚ) / (2 ^ 32 : ℚ), s2)

/-- A rational stand-in for the exponential (degree-5 Taylor polynomial),
keeping the quantal-response sampling executable. -/
def expQ (x : ℚ) : ℚ := 1 + x + x ^ 2 / 2 + x ^ 3 / 6 + x ^ 4 / 24 + x ^ 5 / 120

/-- Modelled from the spec (§4.2 step 4), with `expQ` in place of the real
exponential: the executable quantal-response probability with
max-subtraction stabilization. -/
def qreProbXQ (lam uX uY : ℚ) : ℚ :=
  let sX := lam * uX
  let sY := lam * uY
  let m := max sX sY
  expQ (sX - m) / (expQ (sX - m) + expQ (sY - m))

/-- Modelled from the spec (§4.2): one juror's decision.  The juror draws a
noisy belief of the others' X-count (computed but unused for the Basic
mechanism), perturbs the payoff entries by perception noise, and samples
the vote from the quantal-response probability; each of the three
randomness sources consumes the threaded generator state. -/
def jurorVote (pr : SimulationParameters) (s : ℕ) : Bool × ℕ :=
  let b := randUnit s
  let _xBelief := pr.x_mean * ((pr.num_jurors - 1 : ℕ) : ℚ) +
    (b.1 - 1 / 2) * pr.x_guess_noise
  let e1 := randUnit b.2
  let e2 := randUnit e1.2
  let uX := basicPayoff pr.p pr.d pr.epsilon pr.attack Vote.X Vote.X +
    (e1.1 - 1 / 2) * pr.noise
  let uY := basicPayoff pr.p pr.d pr.epsilon pr.attack Vote.Y Vote.Y +
    (e2.1 - 1 / 2) * pr.noise
  let v := randUnit e2.2
  (if v.1 < qreProbXQ pr.lambda_qre uX uY then true else false, v.2)

/-- Modelled from the spec (§4.3): tally `m` independent juror draws,
threading the generator state; returns the X-vote count and final state. -/
def tallyVotes (pr : SimulationParameters) : ℕ → ℕ → ℕ × ℕ
  | 0, s => (0, s)
  | m + 1, s =>
    let v := jurorVote pr s
    let rest := tallyVotes pr m v.2
    ((if v.1 then 1 else 0) + rest.1, rest.2)

/-- One round's record: vote counts and the per-side average realized
payoffs (spec §3 `RoundResult`). -/
structure RoundRecord where
  x_votes : ℕ
  y_votes : ℕ
  avg_payoff_X : ℚ
  avg_payoff_Y : ℚ
deriving DecidableEq, Repr

/-- Modelled from the spec (§4.3): one round — M juror draws, tally,
majority by the ties-to-X convention, per-side realized payoffs from the
payoff table at the realized majority. -/
def runRound (pr : SimulationParameters) (s : ℕ) : RoundRecord × ℕ :=
  let t := tallyVotes pr pr.num_jurors s
  let xv := t.1
  let yv := pr.num_jurors - xv
  let maj := if yv > xv then Vote.Y else Vote.X
  (⟨xv, yv,
    realizedPayoffBasic pr.p pr.d pr.epsilon pr.attack Vote.X maj,
    realizedPayoffBasic pr.p pr.d pr.epsilon pr.attack Vote.Y maj⟩, t.2)

/-- Modelled from the spec (§4.4): the per-round records of
`num_rounds` consecutive rounds, threading the generator state. -/
def runRounds (pr : SimulationParameters) : ℕ → ℕ → List RoundRecord
  | 0, _ => []
  | n + 1, s =>
    let r := runRound pr s
    r.1 :: runRounds pr n r.2

/-- The histories accumulated by `OracleModel.run_simulations` (spec §3
`SimulationResult`). -/
structure SimulationHistories where
  history_X : List ℕ
  history_Y : List ℕ
  avg_payoff_X : List ℚ
  avg_payoff_Y : List ℚ
deriving DecidableEq, Repr

/-- Modelled from the spec (§4.4): `OracleModel.run_simulations` with an
explicit seed — all randomness (belief sampling, perception noise, vote
sampling) flows from the single threaded generator state initialized with
the seed. -/
def run_simulations (pr : SimulationParameters) (num_rounds : ℕ) (seed : ℕ) :
    SimulationHistories :=
  let rs := runRounds pr num_rounds seed
  ⟨rs.map (fun r => r.x_votes), rs.map (fun r => r.y_votes),
   rs.map (fun r => r.avg_payoff_X), rs.map (fun r => r.avg_payoff_Y)⟩

/-- C6: two runs of `run_simulations` with identical parameters and an
identical explicit seed produce identical histories (vote histories and
payoff histories); the seed is the only randomness source, threaded
through belief sampling, perception noise and vote sampling. -/
theorem run_simulations_deterministic (pr : SimulationParameters)
    (num_rounds seed : ℕ) (r1 r2 : SimulationHistories)
    (h1 : r1 = run_simulations pr num_rounds seed)
    (h2 : r2 = run_simulations pr num_rounds seed) :
    r1.history_X = r2.history_X ∧ r1.history_Y = r2.history_Y ∧
    r1.avg_payoff_X = r2.avg_payoff_X ∧ r1.avg_payoff_Y = r2.avg_payoff_Y := by
  subst h1
  subst h2
  exact ⟨rfl, rfl, rfl, rfl⟩

/-- Witness for C6: the determinism theorem applied at a concrete
parameter set, seed and round count. -/
theorem run_simulations_deterministic_witness :
    (run_simulations ⟨3, 1, 1, 1, 0, 1/2, 0, "Basic", false, 0⟩ 2 42).history_X =
      (run_simulations ⟨3, 1, 1, 1, 0, 1/2, 0, "Basic", false, 0⟩ 2 42).history_X ∧
    (run_simulations ⟨3, 1, 1, 1, 0, 1/2, 0, "Basic", false, 0⟩ 2 42).history_Y =
      (run_simulations ⟨3, 1, 1, 1, 0, 1/2, 0, "Basic", false, 0⟩ 2 42).history_Y ∧
    (run_simulations ⟨3, 1, 1, 1, 0, 1/2, 0, "Basic", false, 0⟩ 2 42).avg_payoff_X =
      (run_simulations ⟨3, 1, 1, 1, 0, 1/2, 0, "Basic", false, 0⟩ 2 42).avg_payoff_X ∧
    (run_simulations ⟨3, 1, 1, 1, 0, 1/2, 0, "Basic", false, 0⟩ 2 42).avg_payoff_Y =
      (run_simulations ⟨3, 1, 1, 1, 0, 1/2, 0, "Basic", false, 0⟩ 2 42).avg_payoff_Y :=
  run_simulations_deterministic ⟨3, 1, 1, 1, 0, 1/2, 0, "Basic", false, 0⟩ 2 42 _ _ rfl rfl

end Oracle
